import Mathlib

/-!
Shallow embedding of the command dispatch engine of `src/lirc.ts`
(`LIRCController`).  `sendCommand` executes one token; `sendCommands`
folds a promise chain over the token list, so each token runs only after
the previous one resolved, and a rejection short-circuits the rest of the
chain.  Network I/O is modelled by an oracle giving each token's
connection outcome, and the externally observable actions (connection
attempts, writes, socket `end()` calls, timer waits) are recorded in an
ordered trace tagged with the index of the token that produced them.
-/

/-- The literal `DELAY_INDENTIFIER` constant of the source (sic). -/
def DELAY_INDENTIFIER : String := "DELAY|"

/-- Immutable controller configuration: the constructor arguments of
`LIRCController` (`host`, `port`, `remote`, `delay`); the logger is not
modelled.  The accessory layer supplies `port || 8765` and `delay || 0`. -/
structure Config where
  host : String
  port : Nat
  remote : String
  delay : Nat
deriving DecidableEq, Repr

/-- Outcome of one TCP connection attempt, decided by the environment:
`ok` means the connection succeeded, the write went through and the socket
emitted no error event; `err msg` means the socket reported the error
`msg` before the write was acknowledged. -/
inductive NetResult where
  | ok : NetResult
  | err : String → NetResult
deriving DecidableEq, Repr

/-- Externally observable actions of the controller.  `connect` is a
`net.connect {host, port}` call, `write` a `client.write data` call,
`closeConn` the `client.end()` call, and `wait ms` a
`setTimeout(resolve, ms)` whose timer elapses before the next event of
the trace (the promise chain continues only from the timer callback). -/
inductive Event where
  | connect : String → Nat → Event
  | write : String → Event
  | closeConn : Event
  | wait : Nat → Event
deriving DecidableEq, Repr

/-- Terminal outcome of a run: the returned promise fulfils (`ok`) or
rejects with the socket error that was passed to `reject` (`error`). -/
inductive Outcome where
  | ok : Outcome
  | error : String → Outcome
deriving DecidableEq, Repr

/-- `key.startsWith(pre)` of JavaScript: `pre` is a leading substring of
`key` (modelled on the character list so it computes by reduction). -/
def startsWithJS (key pre : String) : Bool :=
  List.isPrefixOf pre.data key.data

/-- JavaScript whitespace skipped by `parseInt`: the ASCII whitespace
characters plus the common Unicode ones (NBSP, BOM). -/
def isJsSpace (c : Char) : Bool :=
  c = ' ' || c = '\t' || c = '\n' || c = '\r' ||
  c = '\x0b' || c = '\x0c' || c = ' ' || c = '﻿'

/-- Value of a decimal digit. -/
def decDigit (c : Char) : Option Nat :=
  if '0' ≤ c ∧ c ≤ '9' then some (c.toNat - '0'.toNat) else none

/-- Value of a hexadecimal digit. -/
def hexDigit (c : Char) : Option Nat :=
  if '0' ≤ c ∧ c ≤ '9' then some (c.toNat - '0'.toNat)
  else if 'a' ≤ c ∧ c ≤ 'f' then some (c.toNat - 'a'.toNat + 10)
  else if 'A' ≤ c ∧ c ≤ 'F' then some (c.toNat - 'A'.toNat + 10)
  else none

/-- Accumulate the longest leading run of digits (digit values given by
`f`, radix `base`); the accumulator stays `none` when no digit has been
consumed, which is JavaScript's NaN case. -/
def digitsAux (f : Char → Option Nat) (base : Nat) :
    List Char → Option Nat → Option Nat
  | [], acc => acc
  | c :: cs, acc =>
    match f c with
    | some d => digitsAux f base cs (some (acc.getD 0 * base + d))
    | none => acc

/-- `parseInt(s)` with no radix argument, as JavaScript defines it: skip
leading whitespace, read an optional sign, detect a `0x`/`0X` prefix
(which selects radix 16), then read the longest leading run of digits of
the radix (otherwise 10); `none` models NaN (no digit consumed). -/
def parseIntJS (s : String) : Option Int :=
  let cs := s.data.dropWhile isJsSpace
  let signAndRest : Int × List Char :=
    match cs with
    | '-' :: rest => (-1, rest)
    | '+' :: rest => (1, rest)
    | _ => (1, cs)
  let radixAndRest : Nat × List Char :=
    match signAndRest.2 with
    | '0' :: 'x' :: rest => (16, rest)
    | '0' :: 'X' :: rest => (16, rest)
    | _ => (10, signAndRest.2)
  match digitsAux (if radixAndRest.1 = 16 then hexDigit else decDigit)
      radixAndRest.1 radixAndRest.2 none with
  | none => none
  | some n => some (signAndRest.1 * n)

/-- The delay actually applied by `setTimeout(resolve, v)`: NaN (`none`)
and negative values behave as 0. -/
def setTimeoutMs : Option Int → Nat
  | none => 0
  | some n => n.toNat

/-- Remainder of a delay token after the `DELAY|` prefix.  The source
computes it as `key.replace(DELAY_INDENTIFIER, '')`, which replaces the
first occurrence; under the `startsWith` guard that first occurrence is
the leading prefix, so this equals dropping the prefix length. -/
def delayRemainder (key : String) : String :=
  String.mk (key.data.drop DELAY_INDENTIFIER.data.length)

/-- One token (`this.sendCommand`): a token starting with `DELAY|` only
sets a timer for the parsed duration and resolves; any other token opens
a new connection, and on success writes the single request
`SEND_ONCE <remote> <key>\r\n`, calls `client.end()` and sets the settle
timer `this.delay`; on a socket error the promise is rejected with the
socket's error.  Returns the events performed and `some msg` when the
token rejected. -/
def sendCommand (cfg : Config) (r : NetResult) (key : String) :
    List Event × Option String :=
  if startsWithJS key DELAY_INDENTIFIER then
    ([Event.wait (setTimeoutMs (parseIntJS (delayRemainder key)))], none)
  else
    match r with
    | NetResult.ok =>
        ([Event.connect cfg.host cfg.port,
          Event.write ("SEND_ONCE " ++ cfg.remote ++ " " ++ key ++ "\r\n"),
          Event.closeConn,
          Event.wait cfg.delay], none)
    | NetResult.err m => ([Event.connect cfg.host cfg.port], some m)

/-- The promise chain of `sendCommands`, with explicit token index `s`
(the oracle `net` gives the connection outcome for each token index):
each token runs only after the previous one resolved, and a rejection
short-circuits the rest of the chain. -/
def runFrom (cfg : Config) (net : Nat → NetResult) :
    List String → Nat → List (Nat × Event) × Outcome
  | [], _ => ([], Outcome.ok)
  | k :: ks, s =>
    let step := sendCommand cfg (net s) k
    match step.2 with
    | none =>
        let r := runFrom cfg net ks (s + 1)
        (step.1.map (fun e => (s, e)) ++ r.1, r.2)
    | some m => (step.1.map (fun e => (s, e)), Outcome.error m)

/-- `sendCommands(keys)`: the whole run, tokens indexed from 0. -/
def sendCommands (cfg : Config) (net : Nat → NetResult) (keys : List String) :
    List (Nat × Event) × Outcome :=
  runFrom cfg net keys 0

/-- The spec's `CommandToken` data model (spec section 3). -/
inductive CommandToken where
  | delay : Nat → CommandToken
  | send : String → CommandToken
deriving DecidableEq, Repr

/-- Classification of a raw token string into the spec's `CommandToken`,
with the millisecond count read by JavaScript `parseInt` semantics and
coerced as `setTimeout` coerces it. -/
def classify (key : String) : CommandToken :=
  if startsWithJS key DELAY_INDENTIFIER then
    CommandToken.delay (setTimeoutMs (parseIntJS (delayRemainder key)))
  else
    CommandToken.send key

/-- Modelled from the spec: a strict base-10 integer parse — an optional
sign followed by one or more decimal digits and nothing else — used only
to compare the spec's words "parsed as a base-10 integer" against the
source's `parseInt`. -/
def parseBase10 (s : String) : Option Int :=
  let core : List Char → Option Nat := fun cs =>
    if cs ≠ [] ∧ cs.all (fun c => (decDigit c).isSome) then
      digitsAux decDigit 10 cs none
    else none
  match s.data with
  | '-' :: rest => (core rest).map (fun n => -(n : Int))
  | '+' :: rest => (core rest).map (fun n => (n : Int))
  | cs => (core cs).map (fun n => (n : Int))

/-- Concrete configuration used by the witnesses. -/
def cfgW : Config :=
  { host := "192.168.1.10", port := 8765, remote := "samsung", delay := 100 }

/-- Oracle under which every connection attempt succeeds. -/
def netOkW : Nat → NetResult := fun _ => NetResult.ok

/-- Oracle under which the connection of token index 2 fails. -/
def netFail2W : Nat → NetResult :=
  fun n => if n = 2 then NetResult.err "connect ECONNREFUSED" else NetResult.ok

/-- Oracle under which the connection of token index 0 fails. -/
def netFail0W : Nat → NetResult :=
  fun n => if n = 0 then NetResult.err "connect ECONNREFUSED" else NetResult.ok

/-! ### Helper lemmas -/

/-- Equation lemma: the empty chain resolves at once. -/
theorem runFrom_nil (cfg : Config) (net : Nat → NetResult) (s : Nat) :
    runFrom cfg net [] s = ([], Outcome.ok) := rfl

/-- Equation lemma: a token that resolves is followed by the rest of the
chain. -/
theorem runFrom_cons_none (cfg : Config) (net : Nat → NetResult)
    (k : String) (ks : List String) (s : Nat)
    (h : (sendCommand cfg (net s) k).2 = none) :
    runFrom cfg net (k :: ks) s =
      ((sendCommand cfg (net s) k).1.map (fun e => (s, e)) ++
        (runFrom cfg net ks (s + 1)).1,
       (runFrom cfg net ks (s + 1)).2) := by
  simp only [runFrom]
  rw [h]

/-- Equation lemma: a token that rejects ends the chain with its error. -/
theorem runFrom_cons_some (cfg : Config) (net : Nat → NetResult)
    (k : String) (ks : List String) (s : Nat) (m : String)
    (h : (sendCommand cfg (net s) k).2 = some m) :
    runFrom cfg net (k :: ks) s =
      ((sendCommand cfg (net s) k).1.map (fun e => (s, e)), Outcome.error m) := by
  simp only [runFrom]
  rw [h]

/-- A delay token, or a send token whose connection succeeds, resolves. -/
theorem sendCommand_snd_none_of (cfg : Config) (r : NetResult) (key : String)
    (h : startsWithJS key DELAY_INDENTIFIER = true ∨ r = NetResult.ok) :
    (sendCommand cfg r key).2 = none := by
  rcases h with h | h
  · simp [sendCommand, h]
  · subst h
    unfold sendCommand
    split <;> rfl

/-- A token only rejects when it is a send token and its connection
reported an error, and the rejection value is that error verbatim. -/
theorem sendCommand_snd_some (cfg : Config) (r : NetResult) (key : String)
    (m : String) (h : (sendCommand cfg r key).2 = some m) :
    startsWithJS key DELAY_INDENTIFIER = false ∧ r = NetResult.err m := by
  by_cases hs : startsWithJS key DELAY_INDENTIFIER = true
  · simp [sendCommand, hs] at h
  · have hs' : startsWithJS key DELAY_INDENTIFIER = false := by
      simpa using hs
    cases r with
    | ok => simp [sendCommand, hs'] at h
    | err m' =>
      simp [sendCommand, hs'] at h
      exact ⟨hs', by rw [h]⟩

/-- Every resolving token's event list ends with a timer wait (the delay
timer, or the settle timer). -/
theorem sendCommand_none_wait (cfg : Config) (r : NetResult) (key : String)
    (h : (sendCommand cfg r key).2 = none) :
    ∃ evs ms, (sendCommand cfg r key).1 = evs ++ [Event.wait ms] := by
  by_cases hs : startsWithJS key DELAY_INDENTIFIER = true
  · exact ⟨[], setTimeoutMs (parseIntJS (delayRemainder key)),
      by simp [sendCommand, hs]⟩
  · have hs' : startsWithJS key DELAY_INDENTIFIER = false := by
      simpa using hs
    cases r with
    | ok =>
      exact ⟨[Event.connect cfg.host cfg.port,
        Event.write ("SEND_ONCE " ++ cfg.remote ++ " " ++ key ++ "\r\n"),
        Event.closeConn], cfg.delay, by simp [sendCommand, hs']⟩
    | err m => simp [sendCommand, hs'] at h

/-- Every event of the chain started at index `s` carries an index `≥ s`. -/
theorem runFrom_mem_le (cfg : Config) (net : Nat → NetResult) :
    ∀ (ks : List String) (s : Nat) (p : Nat × Event),
      p ∈ (runFrom cfg net ks s).1 → s ≤ p.1 := by
  intro ks
  induction ks with
  | nil => intro s p hp; simp [runFrom] at hp
  | cons k ks ih =>
    intro s p hp
    rcases hsnd : (sendCommand cfg (net s) k).2 with _ | m
    · rw [runFrom_cons_none cfg net k ks s hsnd] at hp
      rcases List.mem_append.1 hp with hp | hp
      · rcases List.mem_map.1 hp with ⟨e, _, rfl⟩
        exact le_refl s
      · exact le_trans (Nat.le_succ s) (ih (s + 1) p hp)
    · rw [runFrom_cons_some cfg net k ks s m hsnd] at hp
      rcases List.mem_map.1 hp with ⟨e, _, rfl⟩
      exact le_refl s

/-- A tagged segment is trivially ordered: all its indices are equal. -/
theorem pairwise_tag (s : Nat) (evs : List Event) :
    (evs.map (fun e => (s, e))).Pairwise (fun p q : Nat × Event => p.1 ≤ q.1) := by
  induction evs with
  | nil => simp
  | cons e evs ih =>
    refine List.Pairwise.cons ?_ ih
    intro q hq
    rcases List.mem_map.1 hq with ⟨e', _, rfl⟩
    exact le_refl s

/-- The whole trace is ordered by token index: tokens execute in list
order. -/
theorem runFrom_pairwise (cfg : Config) (net : Nat → NetResult) :
    ∀ (ks : List String) (s : Nat),
      ((runFrom cfg net ks s).1).Pairwise (fun p q => p.1 ≤ q.1) := by
  intro ks
  induction ks with
  | nil => intro s; simp [runFrom]
  | cons k ks ih =>
    intro s
    rcases hsnd : (sendCommand cfg (net s) k).2 with _ | m
    · rw [runFrom_cons_none cfg net k ks s hsnd]
      refine List.pairwise_append.2 ⟨pairwise_tag s _, ih (s + 1), ?_⟩
      intro p hp q hq
      rcases List.mem_map.1 hp with ⟨e, _, rfl⟩
      exact le_trans (Nat.le_succ s) (runFrom_mem_le cfg net ks (s + 1) q hq)
    · rw [runFrom_cons_some cfg net k ks s m hsnd]
      exact pairwise_tag s _

/-- Any event of a later token is preceded in the trace by a completed
timer wait of each earlier token: the chain only continues from the
timer callback. -/
theorem runFrom_wait_before (cfg : Config) (net : Nat → NetResult) :
    ∀ (ks : List String) (s i j : Nat) (e : Event),
      s ≤ i → i < j → (j, e) ∈ (runFrom cfg net ks s).1 →
      ∃ ms, List.Sublist [(i, Event.wait ms), (j, e)] (runFrom cfg net ks s).1 := by
  intro ks
  induction ks with
  | nil => intro s i j e _ _ hmem; simp [runFrom] at hmem
  | cons k ks ih =>
    intro s i j e hsi hij hmem
    rcases hsnd : (sendCommand cfg (net s) k).2 with _ | m
    · rw [runFrom_cons_none cfg net k ks s hsnd] at hmem ⊢
      rcases List.mem_append.1 hmem with hin | hin
      · rcases List.mem_map.1 hin with ⟨e', _, heq⟩
        rw [Prod.mk.injEq] at heq
        omega
      · by_cases hi : i = s
        · subst hi
          obtain ⟨evs, ms, hevs⟩ := sendCommand_none_wait cfg (net i) k hsnd
          refine ⟨ms, ?_⟩
          rw [hevs, List.map_append, List.append_assoc]
          refine List.Sublist.trans ?_ (List.sublist_append_right _ _)
          simp only [List.map_cons, List.map_nil, List.singleton_append]
          exact List.Sublist.cons₂ _ (List.singleton_sublist.2 hin)
        · obtain ⟨ms, hsub⟩ := ih (s + 1) i j e (by omega) hij hin
          exact ⟨ms, hsub.trans (List.sublist_append_right _ _)⟩
    · rw [runFrom_cons_some cfg net k ks s m hsnd] at hmem ⊢
      rcases List.mem_map.1 hmem with ⟨e', _, heq⟩
      rw [Prod.mk.injEq] at heq
      omega

/-- Fail-fast: if the tokens before index `i` all resolve and token `i`
is a send token whose connection fails with `m`, the chain rejects with
`m` and the trace holds no event of any later token. -/
theorem runFrom_fail (cfg : Config) (net : Nat → NetResult) :
    ∀ (ks : List String) (s i : Nat) (m : String),
      i < ks.length →
      startsWithJS (ks.getD i "") DELAY_INDENTIFIER = false →
      net (s + i) = NetResult.err m →
      (∀ j, j < i → startsWithJS (ks.getD j "") DELAY_INDENTIFIER = true ∨
        net (s + j) = NetResult.ok) →
      (runFrom cfg net ks s).2 = Outcome.error m ∧
        ∀ p ∈ (runFrom cfg net ks s).1, p.1 ≤ s + i := by
  intro ks
  induction ks with
  | nil => intro s i m hi; simp at hi
  | cons k ks ih =>
    intro s i m hi hsend herr hpre
    cases i with
    | zero =>
      have hk : startsWithJS k DELAY_INDENTIFIER = false := by
        simpa using hsend
      have hnet : net s = NetResult.err m := by simpa using herr
      have hsnd : (sendCommand cfg (net s) k).2 = some m := by
        rw [hnet]
        simp [sendCommand, hk]
      rw [runFrom_cons_some cfg net k ks s m hsnd]
      refine ⟨rfl, ?_⟩
      intro p hp
      rcases List.mem_map.1 hp with ⟨e, _, rfl⟩
      omega
    | succ i' =>
      have h0 := hpre 0 (Nat.succ_pos i')
      have hsnd : (sendCommand cfg (net s) k).2 = none := by
        rcases h0 with h | h
        · exact sendCommand_snd_none_of cfg (net s) k (Or.inl (by simpa using h))
        · exact sendCommand_snd_none_of cfg (net s) k (Or.inr (by simpa using h))
      rw [runFrom_cons_none cfg net k ks s hsnd]
      have hi' : i' < ks.length := by simpa using hi
      have hsend' : startsWithJS (ks.getD i' "") DELAY_INDENTIFIER = false := by
        simpa using hsend
      have herr' : net (s + 1 + i') = NetResult.err m := by
        have harith : s + 1 + i' = s + (i' + 1) := by omega
        rw [harith]
        exact herr
      have hpre' : ∀ j, j < i' →
          startsWithJS (ks.getD j "") DELAY_INDENTIFIER = true ∨
            net (s + 1 + j) = NetResult.ok := by
        intro j hj
        have harith : s + (j + 1) = s + 1 + j := by omega
        have := hpre (j + 1) (by omega)
        simpa [harith] using this
      obtain ⟨hout, hbound⟩ := ih (s + 1) i' m hi' hsend' herr' hpre'
      refine ⟨by simpa using hout, ?_⟩
      intro p hp
      rcases List.mem_append.1 hp with hp | hp
      · rcases List.mem_map.1 hp with ⟨e, _, rfl⟩
        omega
      · have := hbound p hp
        omega

/-- Inversion: a rejected chain rejects with the verbatim connection
error of some send token of the list. -/
theorem runFrom_error_inv (cfg : Config) (net : Nat → NetResult) :
    ∀ (ks : List String) (s : Nat) (m : String),
      (runFrom cfg net ks s).2 = Outcome.error m →
      ∃ i, i < ks.length ∧
        startsWithJS (ks.getD i "") DELAY_INDENTIFIER = false ∧
        net (s + i) = NetResult.err m := by
  intro ks
  induction ks with
  | nil => intro s m h; simp [runFrom] at h
  | cons k ks ih =>
    intro s m h
    rcases hsnd : (sendCommand cfg (net s) k).2 with _ | m'
    · rw [runFrom_cons_none cfg net k ks s hsnd] at h
      obtain ⟨i, hi, hs, hn⟩ := ih (s + 1) m (by simpa using h)
      refine ⟨i + 1, by simpa using Nat.succ_lt_succ hi, by simpa using hs, ?_⟩
      have harith : s + (i + 1) = s + 1 + i := by omega
      rw [harith]
      exact hn
    · rw [runFrom_cons_some cfg net k ks s m' hsnd] at h
      have hm : m' = m := by simpa using h
      subst hm
      obtain ⟨hk, hr⟩ := sendCommand_snd_some cfg (net s) k m' hsnd
      exact ⟨0, Nat.succ_pos _, by simpa using hk, by simpa using hr⟩

/-- A chain of delay tokens alone always resolves. -/
theorem runFrom_all_delay (cfg : Config) (net : Nat → NetResult) :
    ∀ (ks : List String) (s : Nat),
      (∀ k ∈ ks, startsWithJS k DELAY_INDENTIFIER = true) →
      (runFrom cfg net ks s).2 = Outcome.ok := by
  intro ks
  induction ks with
  | nil => intro s _; rfl
  | cons k ks ih =>
    intro s hall
    have hsnd : (sendCommand cfg (net s) k).2 = none :=
      sendCommand_snd_none_of cfg (net s) k (Or.inl (hall k (List.mem_cons_self k ks)))
    rw [runFrom_cons_none cfg net k ks s hsnd]
    exact ih (s + 1) (fun k' hk' => hall k' (List.mem_cons_of_mem k hk'))

/-- After a send token that transmits successfully, its settle timer
`cfg.delay` elapses (after the write and the `end()` call) before any
event of the next token. -/
theorem runFrom_settle (cfg : Config) (net : Nat → NetResult) :
    ∀ (ks : List String) (s i : Nat),
      i < ks.length →
      startsWithJS (ks.getD i "") DELAY_INDENTIFIER = false →
      (∀ j, j ≤ i → startsWithJS (ks.getD j "") DELAY_INDENTIFIER = true ∨
        net (s + j) = NetResult.ok) →
      ∀ e : Event, (s + i + 1, e) ∈ (runFrom cfg net ks s).1 →
      List.Sublist
        [(s + i, Event.write
            ("SEND_ONCE " ++ cfg.remote ++ " " ++ ks.getD i "" ++ "\r\n")),
         (s + i, Event.closeConn),
         (s + i, Event.wait cfg.delay),
         (s + i + 1, e)]
        (runFrom cfg net ks s).1 := by
  intro ks
  induction ks with
  | nil => intro s i hi; simp at hi
  | cons k ks ih =>
    intro s i hi hsend hok e hmem
    cases i with
    | zero =>
      have hk : startsWithJS k DELAY_INDENTIFIER = false := by
        simpa using hsend
      have hnet : net s = NetResult.ok := by
        rcases hok 0 (Nat.le_refl 0) with h | h
        · rw [List.getD_cons_zero] at h
          simp [h] at hk
        · simpa using h
      have hsc : sendCommand cfg (net s) k =
          ([Event.connect cfg.host cfg.port,
            Event.write ("SEND_ONCE " ++ cfg.remote ++ " " ++ k ++ "\r\n"),
            Event.closeConn, Event.wait cfg.delay], none) := by
        rw [hnet]
        simp [sendCommand, hk]
      have hsnd : (sendCommand cfg (net s) k).2 = none := by rw [hsc]
      rw [runFrom_cons_none cfg net k ks s hsnd] at hmem ⊢
      have hmem' : (s + 0 + 1, e) ∈ (runFrom cfg net ks (s + 1)).1 := by
        rcases List.mem_append.1 hmem with h | h
        · rcases List.mem_map.1 h with ⟨e', _, heq⟩
          rw [Prod.mk.injEq] at heq
          omega
        · exact h
      simp only [hsc, List.map_cons, List.map_nil, List.cons_append,
        List.nil_append, Nat.add_zero, List.getD_cons_zero]
      simp only [Nat.add_zero] at hmem'
      exact List.Sublist.cons _ (List.Sublist.cons₂ _ (List.Sublist.cons₂ _
        (List.Sublist.cons₂ _ (List.singleton_sublist.2 hmem'))))
    | succ i' =>
      have h0 := hok 0 (Nat.zero_le _)
      have hsnd : (sendCommand cfg (net s) k).2 = none := by
        rcases h0 with h | h
        · exact sendCommand_snd_none_of cfg (net s) k (Or.inl (by simpa using h))
        · exact sendCommand_snd_none_of cfg (net s) k (Or.inr (by simpa using h))
      rw [runFrom_cons_none cfg net k ks s hsnd] at hmem ⊢
      have hmem' : (s + 1 + i' + 1, e) ∈ (runFrom cfg net ks (s + 1)).1 := by
        rcases List.mem_append.1 hmem with h | h
        · rcases List.mem_map.1 h with ⟨e', _, heq⟩
          rw [Prod.mk.injEq] at heq
          omega
        · rw [show s + 1 + i' + 1 = s + (i' + 1) + 1 from by omega]
          exact h
      have hi' : i' < ks.length := by simpa using hi
      have hsend' : startsWithJS (ks.getD i' "") DELAY_INDENTIFIER = false := by
        simpa using hsend
      have hok' : ∀ j, j ≤ i' →
          startsWithJS (ks.getD j "") DELAY_INDENTIFIER = true ∨
            net (s + 1 + j) = NetResult.ok := by
        intro j hj
        have := hok (j + 1) (by omega)
        simpa [show s + (j + 1) = s + 1 + j from by omega] using this
      have hsub := ih (s + 1) i' hi' hsend' hok' e hmem'
      rw [show s + 1 + i' = s + (i' + 1) from by omega] at hsub
      simp only [List.getD_cons_succ]
      exact hsub.trans (List.sublist_append_right _ _)


/-! ### Claims -/

/-- Claim C1: for every command sequence, if a send token's connection
attempt fails before the write is acknowledged (and every earlier token
resolved), then `sendCommands` terminates with that failure as its
outcome and no token after the failing one is processed: the trace holds
no event — no connection, no timer — of any later token. -/
theorem claim_C1_failFast (cfg : Config) (net : Nat → NetResult)
    (ks : List String) (i : Nat) (m : String) (hi : i < ks.length)
    (hsend : startsWithJS (ks.getD i "") DELAY_INDENTIFIER = false)
    (herr : net i = NetResult.err m)
    (hpre : ∀ j, j < i → startsWithJS (ks.getD j "") DELAY_INDENTIFIER = true ∨
      net j = NetResult.ok) :
    (sendCommands cfg net ks).2 = Outcome.error m ∧
      ∀ p ∈ (sendCommands cfg net ks).1, p.1 ≤ i := by
  have h := runFrom_fail cfg net ks 0 i m hi hsend (by simpa using herr)
    (by intro j hj; simpa using hpre j hj)
  simpa [sendCommands] using h

/-- Witness for C1: with five send tokens and the third one's connection
failing, the run rejects with that error and no event of tokens four and
five appears. -/
theorem claim_C1_witness :
    (sendCommands cfgW netFail2W
      ["KEY_1", "KEY_2", "KEY_3", "KEY_4", "KEY_5"]).2 =
        Outcome.error "connect ECONNREFUSED" ∧
    ∀ p ∈ (sendCommands cfgW netFail2W
      ["KEY_1", "KEY_2", "KEY_3", "KEY_4", "KEY_5"]).1, p.1 ≤ 2 :=
  claim_C1_failFast cfgW netFail2W ["KEY_1", "KEY_2", "KEY_3", "KEY_4", "KEY_5"]
    2 "connect ECONNREFUSED" (by decide) (by decide) (by decide) (by decide)

/-- Claim C2: tokens execute strictly in list order (the trace is sorted
by token index), and no event of token `j` occurs before a completed
timer wait of each earlier token `i` — its delay, or its post-send
settle delay. -/
theorem claim_C2_ordering (cfg : Config) (net : Nat → NetResult)
    (ks : List String) :
    ((sendCommands cfg net ks).1).Pairwise (fun p q => p.1 ≤ q.1) ∧
    ∀ i j : Nat, ∀ e : Event, i < j → (j, e) ∈ (sendCommands cfg net ks).1 →
      ∃ ms, List.Sublist [(i, Event.wait ms), (j, e)]
        (sendCommands cfg net ks).1 := by
  constructor
  · exact runFrom_pairwise cfg net ks 0
  · intro i j e hij hmem
    exact runFrom_wait_before cfg net ks 0 i j e (Nat.zero_le i) hij hmem

/-- Witness for C2: in a two-send run, the second token's connection is
preceded in the trace by a completed wait of the first token. -/
theorem claim_C2_witness :
    ∃ ms, List.Sublist
      [(0, Event.wait ms), (1, Event.connect "192.168.1.10" 8765)]
      (sendCommands cfgW netOkW ["KEY_A", "KEY_B"]).1 :=
  (claim_C2_ordering cfgW netOkW ["KEY_A", "KEY_B"]).2 0 1
    (Event.connect "192.168.1.10" 8765) (by decide) (by decide)

/-- Claim C3: a transmitted send token writes exactly the ASCII string
`SEND_ONCE <remote> <key>\r\n` — one connect, one write, one `end()` per
connection. -/
theorem claim_C3_request (cfg : Config) (key : String)
    (h : startsWithJS key DELAY_INDENTIFIER = false) :
    sendCommand cfg NetResult.ok key =
      ([Event.connect cfg.host cfg.port,
        Event.write ("SEND_ONCE " ++ cfg.remote ++ " " ++ key ++ "\r\n"),
        Event.closeConn,
        Event.wait cfg.delay], none) := by
  simp [sendCommand, h]

/-- Witness for C3: with remote `samsung` and key `KEY_POWER` the bytes
written are exactly `SEND_ONCE samsung KEY_POWER\r\n`. -/
theorem claim_C3_witness :
    sendCommand cfgW NetResult.ok "KEY_POWER" =
      ([Event.connect "192.168.1.10" 8765,
        Event.write "SEND_ONCE samsung KEY_POWER\r\n",
        Event.closeConn,
        Event.wait 100], none) :=
  claim_C3_request cfgW "KEY_POWER" (by decide)

/-- Counterexample for C4 as stated: the remainder after `DELAY|` is not
parsed as a base-10 integer — `parseInt` auto-detects a `0x` prefix, so
the token `DELAY|0x10` is executed with a 16 millisecond (hexadecimal)
wait, while a base-10 reading of the remainder `0x10` yields no such
value. -/
theorem claim_C4_counterexample :
    parseIntJS "0x10" = some 16 ∧
    parseBase10 "0x10" = none ∧
    sendCommand cfgW NetResult.ok "DELAY|0x10" = ([Event.wait 16], none) ∧
    setTimeoutMs (parseBase10 "0x10") ≠ 16 := by
  refine ⟨by decide, by decide, by decide, by decide⟩

/-- Claim C4 (amended): a token is classified and executed as a delay iff
it begins with the literal `DELAY|`; the remainder after that is read
with JavaScript `parseInt` semantics — base 10, except that a `0x`/`0X`
remainder is read as hexadecimal, only the longest leading digit run is
read, and no digits give NaN.  Every other token is executed as a send.
The execution of a token is fully determined by this classification. -/
theorem claim_C4_classification (cfg : Config) (r : NetResult) (key : String) :
    sendCommand cfg r key =
      match classify key with
      | CommandToken.delay ms => ([Event.wait ms], none)
      | CommandToken.send k =>
        match r with
        | NetResult.ok =>
            ([Event.connect cfg.host cfg.port,
              Event.write ("SEND_ONCE " ++ cfg.remote ++ " " ++ k ++ "\r\n"),
              Event.closeConn,
              Event.wait cfg.delay], none)
        | NetResult.err m => ([Event.connect cfg.host cfg.port], some m) := by
  by_cases hs : startsWithJS key DELAY_INDENTIFIER = true
  · simp [sendCommand, classify, hs]
  · have hs' : startsWithJS key DELAY_INDENTIFIER = false := by simpa using hs
    cases r <;> simp [sendCommand, classify, hs']

/-- Counterexample for C5 as stated: the terminal result of a failing run
is the socket error verbatim, with no added context — two runs failing on
different keys produce identical terminal results, so the result cannot
identify the offending token/key. -/
theorem claim_C5_counterexample :
    (sendCommands cfgW netFail0W ["KEY_A"]).2 =
        Outcome.error "connect ECONNREFUSED" ∧
    (sendCommands cfgW netFail0W ["KEY_B"]).2 =
        Outcome.error "connect ECONNREFUSED" ∧
    "KEY_A" ≠ "KEY_B" ∧
    (sendCommands cfgW netFail0W ["KEY_A"]).2 =
      (sendCommands cfgW netFail0W ["KEY_B"]).2 := by
  refine ⟨by decide, by decide, by decide, by decide⟩

/-- Claim C5 (amended): the error returned as the terminal result of a
failing run is the transport error of some send token of the sequence,
passed through verbatim (the offending token/key is logged but not part
of the result). -/
theorem claim_C5_error_verbatim (cfg : Config) (net : Nat → NetResult)
    (ks : List String) (m : String)
    (h : (sendCommands cfg net ks).2 = Outcome.error m) :
    ∃ i, i < ks.length ∧
      startsWithJS (ks.getD i "") DELAY_INDENTIFIER = false ∧
      net i = NetResult.err m := by
  obtain ⟨i, hi, hs, hn⟩ := runFrom_error_inv cfg net ks 0 m h
  exact ⟨i, hi, hs, by simpa using hn⟩

/-- Witness for C5: a failing one-send run rejects with the transport
error of that send token. -/
theorem claim_C5_witness :
    ∃ i, i < (["KEY_A"] : List String).length ∧
      startsWithJS ((["KEY_A"] : List String).getD i "") DELAY_INDENTIFIER
        = false ∧
      netFail0W i = NetResult.err "connect ECONNREFUSED" :=
  claim_C5_error_verbatim cfgW netFail0W ["KEY_A"] "connect ECONNREFUSED"
    (by decide)

/-- Claim C6: executing a delay token performs zero network operations —
its whole trace is one timer wait — and executing a send token whose
connection succeeds performs exactly one connect + write + `end()` cycle
on a fresh connection, with no timer wait other than the configured
settle delay. -/
theorem claim_C6_effects (cfg : Config) (r : NetResult) (key : String) :
    (startsWithJS key DELAY_INDENTIFIER = true →
      sendCommand cfg r key =
        ([Event.wait (setTimeoutMs (parseIntJS (delayRemainder key)))], none)) ∧
    (startsWithJS key DELAY_INDENTIFIER = false →
      sendCommand cfg NetResult.ok key =
        ([Event.connect cfg.host cfg.port,
          Event.write ("SEND_ONCE " ++ cfg.remote ++ " " ++ key ++ "\r\n"),
          Event.closeConn,
          Event.wait cfg.delay], none)) := by
  constructor <;> intro h <;> simp [sendCommand, h]

/-- Witness for C6: `DELAY|250` causes a 250ms wait and zero network
events; `POWER_ON` causes exactly one connect + write + `end()` cycle and
only the settle wait. -/
theorem claim_C6_witness :
    sendCommand cfgW NetResult.ok "DELAY|250" = ([Event.wait 250], none) ∧
    sendCommand cfgW NetResult.ok "POWER_ON" =
      ([Event.connect "192.168.1.10" 8765,
        Event.write "SEND_ONCE samsung POWER_ON\r\n",
        Event.closeConn,
        Event.wait 100], none) :=
  ⟨(claim_C6_effects cfgW NetResult.ok "DELAY|250").1 (by decide),
   (claim_C6_effects cfgW NetResult.ok "POWER_ON").2 (by decide)⟩

/-- Claim C7: after a send token that transmits successfully, the
dispatcher waits the configured settle delay `cfg.delay` — the timer is
started right after the write and the `end()` call, not after the socket
has fully closed — before any event of the next token: the trace shows
write, `end()`, a `cfg.delay` wait, and only then the next token's
event. -/
theorem claim_C7_settle (cfg : Config) (net : Nat → NetResult)
    (ks : List String) (i : Nat) (hi : i < ks.length)
    (hsend : startsWithJS (ks.getD i "") DELAY_INDENTIFIER = false)
    (hok : ∀ j, j ≤ i → startsWithJS (ks.getD j "") DELAY_INDENTIFIER = true ∨
      net j = NetResult.ok) :
    ∀ e : Event, (i + 1, e) ∈ (sendCommands cfg net ks).1 →
    List.Sublist
      [(i, Event.write
          ("SEND_ONCE " ++ cfg.remote ++ " " ++ ks.getD i "" ++ "\r\n")),
       (i, Event.closeConn),
       (i, Event.wait cfg.delay),
       (i + 1, e)]
      (sendCommands cfg net ks).1 := by
  intro e hmem
  have h := runFrom_settle cfg net ks 0 i hi hsend
    (by intro j hj; simpa using hok j hj) e (by simpa using hmem)
  simpa [sendCommands] using h

/-- Witness for C7: with `delay = 100` and two consecutive send tokens,
a 100ms wait stands in the trace between the first token's write (and
`end()`) and the second token's connection attempt. -/
theorem claim_C7_witness :
    List.Sublist
      [(0, Event.write "SEND_ONCE samsung KEY_A\r\n"),
       (0, Event.closeConn),
       (0, Event.wait 100),
       (1, Event.connect "192.168.1.10" 8765)]
      (sendCommands cfgW netOkW ["KEY_A", "KEY_B"]).1 :=
  claim_C7_settle cfgW netOkW ["KEY_A", "KEY_B"] 0 (by decide) (by decide)
    (by decide) (Event.connect "192.168.1.10" 8765) (by decide)

/-- Claim C8: the empty command sequence returns success immediately,
with an empty trace — no network activity and no timer wait. -/
theorem claim_C8_empty (cfg : Config) (net : Nat → NetResult) :
    sendCommands cfg net [] = ([], Outcome.ok) := rfl

/-- Claim C9: a delay token can never cause a run to fail — a sequence of
delay tokens alone always resolves successfully (whatever the network
would do), and any failing run fails on a non-delay token. -/
theorem claim_C9_delay_cannot_fail (cfg : Config) (net : Nat → NetResult)
    (ks : List String) :
    ((∀ k ∈ ks, startsWithJS k DELAY_INDENTIFIER = true) →
      (sendCommands cfg net ks).2 = Outcome.ok) ∧
    (∀ m, (sendCommands cfg net ks).2 = Outcome.error m →
      ∃ i, i < ks.length ∧
        startsWithJS (ks.getD i "") DELAY_INDENTIFIER = false) := by
  constructor
  · intro hall
    exact runFrom_all_delay cfg net ks 0 hall
  · intro m h
    obtain ⟨i, hi, hs, _⟩ := runFrom_error_inv cfg net ks 0 m h
    exact ⟨i, hi, hs⟩

/-- Witness for C9: an all-delay sequence resolves successfully even
under an oracle that would fail the first connection. -/
theorem claim_C9_witness :
    (sendCommands cfgW netFail0W ["DELAY|100", "DELAY|", "DELAY|abc"]).2 =
      Outcome.ok :=
  (claim_C9_delay_cannot_fail cfgW netFail0W
    ["DELAY|100", "DELAY|", "DELAY|abc"]).1 (by decide)

/-- Claim C10: a token that begins with `DELAY|` but whose remainder does
not parse to a number (`parseInt` gives NaN) is still executed as a
delay: no error, no network activity, and `setTimeout` treats NaN as a
zero-length wait, so the chain proceeds immediately and a run of such a
token still succeeds. -/
theorem claim_C10_nan_delay (cfg : Config) (r : NetResult)
    (net : Nat → NetResult) (key : String)
    (hpre : startsWithJS key DELAY_INDENTIFIER = true)
    (hnan : parseIntJS (delayRemainder key) = none) :
    sendCommand cfg r key = ([Event.wait 0], none) ∧
    sendCommands cfg net [key] = ([(0, Event.wait 0)], Outcome.ok) := by
  have hstep : ∀ r' : NetResult, sendCommand cfg r' key =
      ([Event.wait 0], none) := by
    intro r'
    simp [sendCommand, hpre, hnan, setTimeoutMs]
  refine ⟨hstep r, ?_⟩
  have h0 := hstep (net 0)
  simp [sendCommands, runFrom, h0]

/-- Witness for C10: the malformed token `DELAY|abc` yields a zero-length
wait, no network event and a successful run. -/
theorem claim_C10_witness :
    sendCommand cfgW NetResult.ok "DELAY|abc" = ([Event.wait 0], none) ∧
    sendCommands cfgW netOkW ["DELAY|abc"] =
      ([(0, Event.wait 0)], Outcome.ok) :=
  claim_C10_nan_delay cfgW NetResult.ok netOkW "DELAY|abc"
    (by decide) (by decide)
